import Mathlib

/-!
Verification development for the strudel_agent repository.

Part A embeds the context-window builder `filtered_message_history` from
`agent.py`.  A pydantic-ai `ModelMessage` is a record with a list of parts;
the parts relevant to the builder are `SystemPromptPart`, `UserPromptPart`,
`TextPart`, `ToolCallPart` and `ToolReturnPart`.  Content payloads and tool
call ids are modelled as natural numbers.

Part B embeds the `ConnectionManager` from `backend/src/core/manager.py`
(connection registry, fan-out send, tool-request correlation) and the
`SessionManager` from `backend/src/core/session_manager.py` (create /
restore / terminate) as explicit state-passing functions.  Python dicts
become association lists, `asyncio.Future` objects become entries of an
explicit future heap, and the random `uuid4().hex[:8]` token drawn inside
`connect` is passed in as an explicit argument.
-/

namespace StrudelAgent

/-- Message parts of a pydantic-ai `ModelMessage`, as used by
`filtered_message_history` in `agent.py`.  `user`/`text` carry an abstract
content payload, `toolCall`/`toolReturn` carry the `tool_call_id`. -/
inductive Part where
  | system
  | user (content : Nat)
  | text (content : Nat)
  | toolCall (id : Nat)
  | toolReturn (id : Nat)
deriving DecidableEq, Repr

/-- A `ModelMessage`: a record holding a list of parts. -/
structure Msg where
  parts : List Part
deriving DecidableEq, Repr

instance : Inhabited Msg := ⟨⟨[]⟩⟩

/-- Test for `isinstance(part, SystemPromptPart)`. -/
def isSystemPart : Part → Bool
  | .system => true
  | _ => false

/-- Test for `isinstance(part, UserPromptPart)`. -/
def isUserPart : Part → Bool
  | .user _ => true
  | _ => false

/-- Test for `isinstance(part, ToolCallPart)`. -/
def isCallPart : Part → Bool
  | .toolCall _ => true
  | _ => false

/-- Test for `isinstance(part, ToolReturnPart)`. -/
def isReturnPart : Part → Bool
  | .toolReturn _ => true
  | _ => false

/-- Test for `isinstance(part, ToolCallPart) or isinstance(part, ToolReturnPart)`. -/
def isToolPart : Part → Bool
  | .toolCall _ => true
  | .toolReturn _ => true
  | _ => false

/-- Test `type(msg.parts[0]) == SystemPromptPart` from `agent.py` line 76:
a message counts as the system message when its first part is a system
prompt part.  (On an empty part list the Python code would raise; the
claims below only concern messages with at least one part.) -/
def isSystemMsg (m : Msg) : Bool :=
  match m.parts with
  | p :: _ => isSystemPart p
  | [] => false

/-- Test whether a message carries a `ToolCallPart` with the given id. -/
def hasToolCall (m : Msg) (c : Nat) : Bool :=
  m.parts.any (fun p => decide (p = Part.toolCall c))

/-- Index of the LAST message carrying a `ToolCallPart` with id `c`, mirroring
the dict built at `agent.py` lines 102-105 (`tool_call_ids[part.tool_call_id] = i`,
last write wins). -/
def toolCallIdx : List Msg → Nat → Option Nat
  | [], _ => none
  | m :: rest, c =>
    match toolCallIdx rest c with
    | some j => some (j + 1)
    | none => if hasToolCall m c then some 0 else none

/-- Indices pulled back for one message: for every `ToolReturnPart` of `m`
whose id is a key of the tool-call index, the index of the paired call
message (`agent.py` lines 116-118). -/
def pulledIdxs (ns : List Msg) (m : Msg) : Finset Nat :=
  (m.parts.filterMap (fun p =>
    match p with
    | Part.toolReturn c => toolCallIdx ns c
    | _ => none)).toFinset

/-- One iteration of the pull-back loop at `agent.py` lines 114-118: when
index `i` is already in the included set, the paired call indices of the
returns carried by message `i` are added. -/
def augmentStep (ns : List Msg) (s : Finset Nat) (i : Nat) : Finset Nat :=
  if i ∈ s then s ∪ pulledIdxs ns (ns.getD i default) else s

/-- The full pull-back loop over indices `0, …, ns.length - 1`, mutating the
included-index set as it goes (`agent.py` lines 114-118). -/
def augmentIncluded (ns : List Msg) (base : Finset Nat) : Finset Nat :=
  (List.range ns.length).foldl (augmentStep ns) base

/-- Selection `[msg for i, msg in enumerate(ns) if i in included]`
(`agent.py` line 137), starting the enumeration at offset `k`. -/
def selectFrom (s : Finset Nat) : List Msg → Nat → List Msg
  | [], _ => []
  | m :: rest, k =>
    if k ∈ s then m :: selectFrom s rest (k + 1) else selectFrom s rest (k + 1)

/-- Last `UserPromptPart` of a single message (the inner loop of
`agent.py` lines 89-93 keeps overwriting, so the last user part wins). -/
def lastUserPart (m : Msg) : Option Part :=
  (m.parts.filter isUserPart).getLast?

/-- Accumulating scan for the most recent user prompt part: index of the
last message carrying a user part, together with that message's last user
part (`agent.py` lines 87-93). -/
def latestUserAux : List Msg → Nat → Option (Nat × Part) → Option (Nat × Part)
  | [], _, acc => acc
  | m :: rest, k, acc =>
    latestUserAux rest (k + 1)
      (match lastUserPart m with
       | some p => some (k, p)
       | none => acc)

/-- The most recent user prompt part of the non-system messages, with the
index of the message that carries it. -/
def latestUser (ns : List Msg) : Option (Nat × Part) :=
  latestUserAux ns 0 none

/-- Replace the first `UserPromptPart` of a part list by `p`, or append `p`
when no user part is present (`agent.py` lines 126-134). -/
def replaceFirstUser : List Part → Part → List Part
  | [], p => [p]
  | q :: rest, p =>
    if isUserPart q then p :: rest else q :: replaceFirstUser rest p

/-- Non-system messages of the transcript (`agent.py` line 79). -/
def nonSystem (msgs : List Msg) : List Msg :=
  msgs.filter (fun m => !(isSystemMsg m))

/-- Base candidate set: indices of the last `limit` entries
(`agent.py` line 111). -/
def windowBase (ns : List Msg) (l : Int) : Finset Nat :=
  Finset.Ico (ns.length - l.toNat) ns.length

/-- Final included-index set: the last-`limit` indices augmented by the
pulled-back tool-call indices. -/
def windowIdxs (ns : List Msg) (l : Int) : Finset Nat :=
  augmentIncluded ns (windowBase ns l)

/-- Trimming step of `filtered_message_history` (`agent.py` lines 96-137):
when a positive limit is given and the non-system list is longer than the
limit, select the augmented last-`limit` indices and, when the latest user
prompt falls outside the included set and a system message exists, relocate
that user part into the system message. -/
def trimWindow (ns : List Msg) (sys : Option Msg) (l : Int) :
    Option Msg × List Msg :=
  if 0 < l ∧ l.toNat < ns.length then
    let inc := windowIdxs ns l
    let sys2 :=
      match latestUser ns, sys with
      | some (j, p), some s =>
        if j ∈ inc then sys else some ⟨replaceFirstUser s.parts p⟩
      | _, _ => sys
    (sys2, selectFrom inc ns 0)
  else (sys, ns)

/-- Shallow embedding of `filtered_message_history` (`agent.py` lines
53-145).  `result = none` models `result is None`; otherwise `result` holds
`result.all_messages()`.  The returned list is the (possibly relocated)
system message followed by the selected non-system messages. -/
def filtered_message_history (result : Option (List Msg)) (limit : Option Int)
    (include_tool_messages : Bool) : Option (List Msg) :=
  match result with
  | none => none
  | some messages =>
    let system_message := messages.find? isSystemMsg
    let ns1 := nonSystem messages
    let ns := if include_tool_messages then ns1
              else ns1.filter (fun m => !(m.parts.any isToolPart))
    let trimmed :=
      match limit with
      | some l => trimWindow ns system_message l
      | none => (system_message, ns)
    some ((match trimmed.1 with
           | some s => [s]
           | none => []) ++ trimmed.2)

/-! ### Association-list primitives

Python dicts keyed by strings / naturals are modelled as association
lists with unique keys: `alookup` is `d.get(k)`, `aset` is `d[k] = v`
(replace or append), `aremove` is `d.pop(k, None)`. -/

/-- Lookup in an association list (`d.get(k)` / `k in d`). -/
def alookup {κ β : Type} [DecidableEq κ] (k : κ) : List (κ × β) → Option β
  | [] => none
  | (k1, v) :: rest => if k = k1 then some v else alookup k rest

/-- Update or insert in an association list (`d[k] = v`). -/
def aset {κ β : Type} [DecidableEq κ] (k : κ) (v : β) :
    List (κ × β) → List (κ × β)
  | [] => [(k, v)]
  | (k1, v1) :: rest =>
    if k = k1 then (k, v) :: rest else (k1, v1) :: aset k v rest

/-- Removal from an association list (`d.pop(k, None)` / `del d[k]`). -/
def aremove {κ β : Type} [DecidableEq κ] (k : κ) :
    List (κ × β) → List (κ × β)
  | [] => []
  | (k1, v1) :: rest =>
    if k = k1 then rest else (k1, v1) :: aremove k rest

/-! ### ConnectionManager (`backend/src/core/manager.py`) -/

/-- State of an `asyncio.Future` used as a pending-tool-request slot:
`set_result` moves it to `resolvedWith`, `set_exception` to `rejectedWith`;
either call on a future that is already done raises `InvalidStateError`. -/
inductive FutState where
  | unresolved
  | resolvedWith (data : Option Nat)
  | rejectedWith (err : String)
deriving DecidableEq, Repr

/-- The `SessionContext` pydantic model (metadata omitted: it is never
written by the manager). -/
structure SessionContext where
  session_id : String
deriving DecidableEq, Repr

/-- State of `ConnectionManager`: the three dicts of `__init__`
(lines 20-28) plus an explicit heap of the `asyncio.Future` objects that
the nested `pending_tool_requests` dict points into.  WebSocket transport
handles are abstracted as naturals. -/
structure ConnState where
  active_connections : List (String × List (String × Nat))
  session_contexts : List (String × SessionContext)
  pending_tool_requests : List (String × List (String × Nat))
  futures : List (Nat × FutState)
deriving DecidableEq, Repr

/-- Embedding of `ConnectionManager.connect` (lines 30-62).  The random
token `uuid4().hex[:8]` is passed in explicitly as `token`; the connection
id is `f"{connection_type}-{token}"`, stored with no uniqueness check. -/
def connect (st : ConnState) (websocket : Nat) (session_id : String)
    (connection_type : String) (token : String) :
    ConnState × SessionContext × String :=
  let connection_id := connection_type ++ "-" ++ token
  let conns := (alookup session_id st.active_connections).getD []
  let st1 := { st with
    active_connections :=
      aset session_id (aset connection_id websocket conns) st.active_connections }
  match alookup session_id st1.session_contexts with
  | some context => (st1, context, connection_id)
  | none =>
    let context : SessionContext := ⟨session_id⟩
    ({ st1 with
       session_contexts := aset session_id context st1.session_contexts },
     context, connection_id)

/-- Embedding of `ConnectionManager.disconnect` (lines 64-89): removes one
connection (or all, when `connection_id` is `none`); when no connection is
left for the session, the session context and the session's slice of
`pending_tool_requests` are dropped.  The future heap is not touched: no
pending future is resolved or rejected here. -/
def disconnect (st : ConnState) (session_id : String)
    (connection_id : Option String) : ConnState :=
  match alookup session_id st.active_connections with
  | none => st
  | some conns =>
    match connection_id with
    | some cid =>
      let conns1 := aremove cid conns
      if conns1.isEmpty then
        { st with
          active_connections := aremove session_id st.active_connections,
          session_contexts := aremove session_id st.session_contexts,
          pending_tool_requests := aremove session_id st.pending_tool_requests }
      else
        { st with
          active_connections := aset session_id conns1 st.active_connections }
    | none =>
      { st with
        active_connections := aremove session_id st.active_connections,
        session_contexts := aremove session_id st.session_contexts,
        pending_tool_requests := aremove session_id st.pending_tool_requests }

/-- Test `conn_id.startswith(f"{target}-")` together with the `'all'`
special case of `send_message` (lines 114-121). -/
def connMatches (target cid : String) : Bool :=
  if target = "all" then true else (target ++ "-").isPrefixOf cid

/-- Target selection of `send_message` (lines 113-121): all connections
for `'all'`, otherwise those whose connection id starts with
`f"{target}-"`. -/
def targetsOf (connections : List (String × Nat)) (target : String) :
    List (String × Nat) :=
  if target = "all" then connections
  else connections.filter (fun kv => (target ++ "-").isPrefixOf kv.1)

/-- Embedding of `ConnectionManager.send_message` (lines 91-136).  The
abstract oracle `sendFails` says whether `ws.send_json` raises for a given
connection id; every such exception is caught and logged per connection.
Returns the boolean result of the Python function together with the list of
connection ids that were actually delivered to. -/
def send_message (st : ConnState) (session_id : String) (target : String)
    (sendFails : String → Bool) : Bool × List String :=
  match alookup session_id st.active_connections with
  | none => (false, [])
  | some connections =>
    let targets := targetsOf connections target
    if targets.isEmpty then (false, [])
    else (true, (targets.filter (fun kv => !(sendFails kv.1))).map Prod.fst)

/-- Registration half of `ConnectionManager.send_tool_request`
(lines 181-187): a fresh future is allocated on the heap and recorded under
`pending_tool_requests[session_id][request_id]` before the request is sent
and the caller suspends on the future. -/
def send_tool_request_register (st : ConnState) (session_id : String)
    (request_id : String) (fid : Nat) : ConnState :=
  let reqs := (alookup session_id st.pending_tool_requests).getD []
  { st with
    pending_tool_requests :=
      aset session_id (aset request_id fid reqs) st.pending_tool_requests,
    futures := aset fid FutState.unresolved st.futures }

/-- Cleanup half of `ConnectionManager.send_tool_request` (the `finally`
block, lines 206-209): once the waiting caller resumes, the pending entry is
popped; the future object itself stays on the heap. -/
def send_tool_request_cleanup (st : ConnState) (session_id : String)
    (request_id : String) : ConnState :=
  match alookup session_id st.pending_tool_requests with
  | none => st
  | some reqs =>
    { st with
      pending_tool_requests :=
        aset session_id (aremove request_id reqs) st.pending_tool_requests }

/-- A `tool_response` message from the client, as read by
`handle_tool_response`: `request_id`, `success`, and the optional
`data` / `error` payloads. -/
structure ToolResponseMsg where
  request_id : String
  success : Bool
  data : Option Nat
  error : Option String
deriving DecidableEq, Repr

/-- Behaviour of `future.set_result(v)`: succeeds only on a future that is
not yet done, otherwise raises `InvalidStateError`. -/
def setFutureResult (st : ConnState) (fid : Nat) (v : Option Nat) :
    ConnState × Option String :=
  match alookup fid st.futures with
  | some FutState.unresolved =>
    ({ st with futures := aset fid (FutState.resolvedWith v) st.futures }, none)
  | some _ => (st, some "InvalidStateError")
  | none => (st, none)

/-- Behaviour of `future.set_exception(RuntimeError(e))`: succeeds only on
a future that is not yet done, otherwise raises `InvalidStateError`. -/
def setFutureException (st : ConnState) (fid : Nat) (e : String) :
    ConnState × Option String :=
  match alookup fid st.futures with
  | some FutState.unresolved =>
    ({ st with futures := aset fid (FutState.rejectedWith e) st.futures }, none)
  | some _ => (st, some "InvalidStateError")
  | none => (st, none)

/-- Lookup `session_id in pending and request_id in pending[session_id]`
(lines 220-221). -/
def pendingLookup (st : ConnState) (session_id request_id : String) :
    Option Nat :=
  (alookup session_id st.pending_tool_requests).bind (alookup request_id)

/-- Embedding of `ConnectionManager.handle_tool_response` (lines 211-229).
When the pending entry exists, the paired future is resolved
(`set_result(data)`) or rejected (`set_exception(RuntimeError(error or
'Unknown error'))`); when it does not, the response is logged and dropped.
The second component is the exception (if any) escaping to the caller:
`set_result`/`set_exception` on an already-done future raises
`InvalidStateError`, and nothing in this function or in the websocket loop
that awaits it catches that. -/
def handle_tool_response (st : ConnState) (session_id : String)
    (resp : ToolResponseMsg) : ConnState × Option String :=
  match pendingLookup st session_id resp.request_id with
  | none => (st, none)
  | some fid =>
    if resp.success then setFutureResult st fid resp.data
    else setFutureException st fid (resp.error.getD "Unknown error")

/-! ### SessionManager (`backend/src/core/session_manager.py`) -/

/-- The `SessionCreate` pydantic model (`db/models.py`). -/
structure SessionCreate where
  agent_name : String
  model_name : String
  provider : Option String
  session_type : String
  item_id : String
  project_id : String
  session_name : Option String
deriving DecidableEq, Repr

/-- A durable `sessions` table row (`db/models.py` class `Session`);
`name_meta` is `metadata_["name"]`. -/
structure DbSession where
  agent_name : String
  model_name : String
  provider : Option String
  session_type : String
  item_id : String
  project_id : String
  status : String
  name_meta : Option String
deriving DecidableEq, Repr

/-- Durable world: the `sessions` table, the append-only `memory_files`
table (session id, relative path, `is_primary`), and the two per-session
files written under `memory/sessions/<id>/` (`memory.json` content as a
string, `conversation_history.pkl` content as a message list).  Session
UUIDs are abstracted as naturals. -/
structure World where
  db_sessions : List (Nat × DbSession)
  memory_files : List (Nat × String × Bool)
  fs_memory_json : List (Nat × String)
  fs_history : List (Nat × List Msg)
deriving DecidableEq, Repr

/-- The runtime `SessionState` (`session_manager.py` lines 29-43):
`agent_bound` models the `initialize_agent` binding. -/
structure SessionState where
  session_id : Nat
  config : SessionCreate
  conversation_history : List Msg
  agent_bound : Bool
deriving DecidableEq, Repr

/-- The in-memory `SessionManager.sessions` map. -/
def SessionsMap := List (Nat × SessionState)

/-- Embedding of `SessionManager._initialize_memory` (lines 270-308):
writes a fresh `memory.json`, writes an empty `conversation_history.pkl`
(`pickle.dump([])`), and appends the two `memory_files` rows. -/
def initialize_memory (w : World) (sid : Nat) : World :=
  let memPath := "sessions/" ++ toString sid ++ "/memory.json"
  let histPath := "sessions/" ++ toString sid ++ "/conversation_history.pkl"
  { w with
    fs_memory_json :=
      aset sid ("Session memory for " ++ toString sid) w.fs_memory_json,
    fs_history := aset sid [] w.fs_history,
    memory_files :=
      w.memory_files ++ [(sid, memPath, true), (sid, histPath, false)] }

/-- Embedding of `SessionManager.create_session` (lines 175-199): creates
the durable session row (status `"active"`, name stored in metadata),
provisions the memory files, binds the agent and inserts the new
`SessionState` into the in-memory map.  The fresh `uuid4()` session id is
passed in explicitly. -/
def create_session (w : World) (sm : SessionsMap) (config : SessionCreate)
    (fresh : Nat) : World × SessionsMap × SessionState :=
  let row : DbSession :=
    { agent_name := config.agent_name,
      model_name := config.model_name,
      provider := config.provider,
      session_type := config.session_type,
      item_id := config.item_id,
      project_id := config.project_id,
      status := "active",
      name_meta := config.session_name }
  let w1 := { w with db_sessions := aset fresh row w.db_sessions }
  let w2 := initialize_memory w1 fresh
  let state : SessionState :=
    { session_id := fresh, config := config,
      conversation_history := [], agent_bound := true }
  (w2, aset fresh state sm, state)

/-- Embedding of `SessionManager.restore_session` (lines 212-252): loads
the durable row (`ValueError` when absent), rebuilds the config (session
name from metadata), binds the agent, loads the pickled history
(`load_history`: an absent file leaves the history empty), and inserts the
rebuilt state into the in-memory map.  No durable write is performed. -/
def restore_session (w : World) (sm : SessionsMap) (sid : Nat) :
    Except String (World × SessionsMap × SessionState) :=
  match alookup sid w.db_sessions with
  | none => Except.error ("Session " ++ toString sid ++ " not found in database")
  | some row =>
    let config : SessionCreate :=
      { agent_name := row.agent_name,
        model_name := row.model_name,
        provider := row.provider,
        session_type := row.session_type,
        item_id := row.item_id,
        project_id := row.project_id,
        session_name := row.name_meta }
    let state : SessionState :=
      { session_id := sid, config := config,
        conversation_history := (alookup sid w.fs_history).getD [],
        agent_bound := true }
    Except.ok (w, aset sid state sm, state)

/-- Embedding of `SessionManager.terminate_session` (lines 254-268) over
the combined process state: evicts the session from the in-memory map and
flips the durable status to `"terminated"`.  The Python body never
references the `ConnectionManager`, so the connection-registry state `cm`
(and with it every pending tool request and its future) passes through
unchanged. -/
def terminate_session (w : World) (sm : SessionsMap) (cm : ConnState)
    (sid : Nat) : World × SessionsMap × ConnState :=
  let sm1 := aremove sid sm
  let w1 :=
    match alookup sid w.db_sessions with
    | some row =>
      { w with db_sessions := aset sid { row with status := "terminated" } w.db_sessions }
    | none => w
  (w1, sm1, cm)

/-! ### Transcript well-formedness predicates

These decidable predicates express the hypotheses of the pairing claim
about the context-window builder. -/

/-- Helper scan for `returnsPairedBefore`: `seen` holds the messages
strictly before the ones still to be checked. -/
def rpAux : List Msg → List Msg → Bool
  | _, [] => true
  | seen, m :: rest =>
    (m.parts.all (fun p =>
      match p with
      | Part.toolReturn c => seen.any (fun m2 => hasToolCall m2 c)
      | _ => true)) && rpAux (seen ++ [m]) rest

/-- Every `ToolReturnPart` of the transcript is preceded by a strictly
earlier message carrying a `ToolCallPart` with the same id. -/
def returnsPairedBefore (msgs : List Msg) : Bool :=
  rpAux [] msgs

/-- No message carries both a `ToolCallPart` and a `ToolReturnPart`
(true of every pydantic-ai message: calls live in `ModelResponse`,
returns in `ModelRequest`). -/
def noMixedMsgs (msgs : List Msg) : Bool :=
  msgs.all (fun m => !(m.parts.any isCallPart && m.parts.any isReturnPart))

/-- No system message (first part a system prompt) carries any tool part. -/
def systemToolFree (msgs : List Msg) : Bool :=
  msgs.all (fun m => !(isSystemMsg m) || m.parts.all (fun p => !(isToolPart p)))

/-! ### Concrete fixtures

Small concrete states used as inputs by the counterexamples and witnesses
below. -/

/-- A connection-manager state with one live connection and one pending
tool request whose future is not yet resolved. -/
def pendingCM : ConnState :=
  { active_connections := [("s", [("pwa-a", 1)])],
    session_contexts := [("s", ⟨"s"⟩)],
    pending_tool_requests := [("s", [("r", 0)])],
    futures := [(0, FutState.unresolved)] }

/-- A connection-manager state whose single pending entry is still
registered although its future already holds data 42. -/
def resolvedCM : ConnState :=
  { active_connections := [],
    session_contexts := [],
    pending_tool_requests := [("s", [("r", 0)])],
    futures := [(0, FutState.resolvedWith (some 42))] }

/-- An empty connection-manager state. -/
def emptyCM : ConnState :=
  { active_connections := [], session_contexts := [],
    pending_tool_requests := [], futures := [] }

/-- A sample durable session row. -/
def sampleRow : DbSession :=
  { agent_name := "strudel", model_name := "m", provider := some "openrouter",
    session_type := "clip", item_id := "i", project_id := "p",
    status := "active", name_meta := none }

/-- The session config corresponding to `sampleRow`. -/
def sampleCfg : SessionCreate :=
  { agent_name := "strudel", model_name := "m", provider := some "openrouter",
    session_type := "clip", item_id := "i", project_id := "p",
    session_name := none }

/-- A sample durable world holding `sampleRow` and a one-message pickled
history for session 1. -/
def sampleWorld : World :=
  { db_sessions := [(1, sampleRow)],
    memory_files := [], fs_memory_json := [],
    fs_history := [(1, [⟨[Part.text 0]⟩])] }

/-! ## Lemma layer -/

theorem alookup_aset_self {κ β : Type} [DecidableEq κ] (k : κ) (v : β) :
    ∀ l : List (κ × β), alookup k (aset k v l) = some v
  | [] => by simp [aset, alookup]
  | (k1, v1) :: rest => by
    by_cases h : k = k1
    · simp [aset, alookup, h]
    · simp [aset, alookup, h, alookup_aset_self k v rest]

theorem alookup_aset_ne {κ β : Type} [DecidableEq κ] {k k2 : κ} (v : β)
    (h : k2 ≠ k) : ∀ l : List (κ × β), alookup k2 (aset k v l) = alookup k2 l
  | [] => by simp [aset, alookup, h]
  | (k1, v1) :: rest => by
    by_cases h1 : k = k1
    · subst h1
      simp [aset, alookup, h]
    · by_cases h2 : k2 = k1
      · simp [aset, alookup, h1, h2]
      · simp [aset, alookup, h1, h2, alookup_aset_ne v h rest]

theorem mem_replaceFirstUser (p : Part) :
    ∀ ps : List Part, p ∈ replaceFirstUser ps p
  | [] => by simp [replaceFirstUser]
  | q :: rest => by
    by_cases h : isUserPart q = true
    · simp [replaceFirstUser, h]
    · simp only [replaceFirstUser, if_neg h]
      exact List.mem_cons_of_mem q (mem_replaceFirstUser p rest)

theorem replaceFirstUser_mem_cases {q p : Part} :
    ∀ ps : List Part, q ∈ replaceFirstUser ps p → q ∈ ps ∨ q = p
  | [], h => by
    simp [replaceFirstUser] at h
    exact Or.inr h
  | r :: rest, h => by
    by_cases hr : isUserPart r = true
    · simp only [replaceFirstUser, if_pos hr] at h
      rcases List.mem_cons.mp h with h1 | h1
      · exact Or.inr h1
      · exact Or.inl (List.mem_cons_of_mem r h1)
    · simp only [replaceFirstUser, if_neg hr] at h
      rcases List.mem_cons.mp h with h1 | h1
      · exact Or.inl (h1 ▸ List.mem_cons_self r rest)
      · rcases replaceFirstUser_mem_cases rest h1 with h2 | h2
        · exact Or.inl (List.mem_cons_of_mem r h2)
        · exact Or.inr h2

theorem replaceFirstUser_no_user (p : Part) :
    ∀ ps : List Part, (∀ r ∈ ps, isUserPart r = false) →
      replaceFirstUser ps p = ps ++ [p]
  | [], _ => rfl
  | q :: rest, h => by
    have hq : isUserPart q = false := h q (List.mem_cons_self q rest)
    have hrest : ∀ r ∈ rest, isUserPart r = false :=
      fun r hr => h r (List.mem_cons_of_mem q hr)
    simp [replaceFirstUser, hq, replaceFirstUser_no_user p rest hrest]

theorem replaceFirstUser_at_first_user (p : Part) :
    ∀ pre q post, isUserPart q = true → (∀ r ∈ pre, isUserPart r = false) →
      replaceFirstUser (pre ++ q :: post) p = pre ++ p :: post
  | [], q, post, hq, _ => by simp [replaceFirstUser, hq]
  | r :: pre, q, post, hq, hpre => by
    have hr : isUserPart r = false := hpre r (List.mem_cons_self r pre)
    have hpre1 : ∀ x ∈ pre, isUserPart x = false :=
      fun x hx => hpre x (List.mem_cons_of_mem r hx)
    simp [replaceFirstUser, hr, replaceFirstUser_at_first_user p pre q post hq hpre1]

theorem lastUserPart_isUser {m : Msg} {p : Part}
    (h : lastUserPart m = some p) : isUserPart p = true := by
  have h2 : (m.parts.filter isUserPart).getLast? = some p := h
  have hmem : p ∈ m.parts.filter isUserPart := by
    rcases List.mem_getLast?_eq_getLast (Option.mem_def.mpr h2) with ⟨hne, hp⟩
    exact hp ▸ List.getLast_mem hne
  exact (List.mem_filter.mp hmem).2

theorem latestUserAux_isUser :
    ∀ (ns : List Msg) (k : Nat) (acc : Option (Nat × Part)),
      (∀ j p, acc = some (j, p) → isUserPart p = true) →
      ∀ j p, latestUserAux ns k acc = some (j, p) → isUserPart p = true
  | [], _, _, hacc, j, p, h => hacc j p h
  | m :: rest, k, acc, hacc, j, p, h => by
    refine latestUserAux_isUser rest (k + 1) _ ?_ j p h
    intro j1 p1 h1
    cases hm : lastUserPart m with
    | none =>
      rw [hm] at h1
      exact hacc j1 p1 h1
    | some q =>
      rw [hm] at h1
      cases h1
      exact lastUserPart_isUser hm

theorem latestUser_isUser {ns : List Msg} {j : Nat} {p : Part}
    (h : latestUser ns = some (j, p)) : isUserPart p = true :=
  latestUserAux_isUser ns 0 none (by intro j1 p1 h1; cases h1) j p h

theorem hasToolCall_iff {m : Msg} {c : Nat} :
    hasToolCall m c = true ↔ Part.toolCall c ∈ m.parts := by
  simp [hasToolCall, List.any_eq_true]

theorem toolCallIdx_spec :
    ∀ (ns : List Msg) (c j : Nat), toolCallIdx ns c = some j →
      j < ns.length ∧ hasToolCall (ns.getD j default) c = true
  | [], c, j, h => by simp [toolCallIdx] at h
  | m :: rest, c, j, h => by
    simp only [toolCallIdx] at h
    cases hr : toolCallIdx rest c with
    | some j1 =>
      rw [hr] at h
      cases h
      have := toolCallIdx_spec rest c j1 hr
      exact ⟨Nat.succ_lt_succ this.1, by simpa [List.getD_cons_succ] using this.2⟩
    | none =>
      rw [hr] at h
      by_cases hm : hasToolCall m c = true
      · rw [if_pos hm] at h
        cases h
        exact ⟨Nat.succ_pos _, by simpa [List.getD_cons_zero] using hm⟩
      · rw [if_neg hm] at h
        cases h

theorem toolCallIdx_isSome_of_mem :
    ∀ (ns : List Msg) (c : Nat) (m : Msg), m ∈ ns → hasToolCall m c = true →
      ∃ j, toolCallIdx ns c = some j
  | [], c, m, hm, _ => absurd hm (List.not_mem_nil m)
  | m1 :: rest, c, m, hm, hc => by
    simp only [toolCallIdx]
    cases hr : toolCallIdx rest c with
    | some j1 => exact ⟨j1 + 1, rfl⟩
    | none =>
      rcases List.mem_cons.mp hm with h1 | h1
      · subst h1
        exact ⟨0, by simp [hc]⟩
      · rcases toolCallIdx_isSome_of_mem rest c m h1 hc with ⟨j, hj⟩
        rw [hj] at hr
        cases hr

theorem mem_pulledIdxs {ns : List Msg} {m : Msg} {j : Nat} :
    j ∈ pulledIdxs ns m ↔
      ∃ c, Part.toolReturn c ∈ m.parts ∧ toolCallIdx ns c = some j := by
  simp only [pulledIdxs, List.mem_toFinset, List.mem_filterMap]
  constructor
  · rintro ⟨p, hp, hj⟩
    cases p with
    | toolReturn c => exact ⟨c, hp, hj⟩
    | system => simp at hj
    | user _ => simp at hj
    | text _ => simp at hj
    | toolCall _ => simp at hj
  · rintro ⟨c, hc, hj⟩
    exact ⟨Part.toolReturn c, hc, hj⟩

theorem augmentStep_of_mem {ns : List Msg} {s : Finset Nat} {i : Nat}
    (h : i ∈ s) : augmentStep ns s i = s ∪ pulledIdxs ns (ns.getD i default) := by
  unfold augmentStep
  rw [if_pos h]

theorem subset_augmentStep (ns : List Msg) (s : Finset Nat) (i : Nat) :
    s ⊆ augmentStep ns s i := by
  unfold augmentStep
  split
  · exact Finset.subset_union_left
  · exact Finset.Subset.refl s

theorem subset_foldl_augment (ns : List Msg) :
    ∀ (L : List Nat) (s : Finset Nat), s ⊆ L.foldl (augmentStep ns) s
  | [], s => Finset.Subset.refl s
  | i :: L, s =>
    Finset.Subset.trans (subset_augmentStep ns s i)
      (subset_foldl_augment ns L (augmentStep ns s i))

theorem mem_foldl_augment_cases (ns : List Msg) :
    ∀ (L : List Nat) (s : Finset Nat) (x : Nat),
      x ∈ L.foldl (augmentStep ns) s →
      x ∈ s ∨ ∃ c, toolCallIdx ns c = some x
  | [], s, x, h => Or.inl h
  | i :: L, s, x, h => by
    rcases mem_foldl_augment_cases ns L (augmentStep ns s i) x h with h1 | h1
    · unfold augmentStep at h1
      split at h1
      · rcases Finset.mem_union.mp h1 with h2 | h2
        · exact Or.inl h2
        · rcases mem_pulledIdxs.mp h2 with ⟨c, _, hc⟩
          exact Or.inr ⟨c, hc⟩
      · exact Or.inl h1
    · exact Or.inr h1

theorem pulled_subset_augmentIncluded (ns : List Msg) (base : Finset Nat)
    (i : Nat) (hi : i < ns.length) (hb : i ∈ base) :
    pulledIdxs ns (ns.getD i default) ⊆ augmentIncluded ns base := by
  unfold augmentIncluded
  have hsplit : List.range ns.length =
      (List.range i ++ [i]) ++ List.map (fun x => i + 1 + x)
        (List.range (ns.length - (i + 1))) := by
    rw [← List.range_succ, ← List.range_add]
    congr 1
    omega
  rw [hsplit, List.foldl_append, List.foldl_append]
  intro x hx
  refine subset_foldl_augment ns _ _ ?_
  have hbase : i ∈ List.foldl (augmentStep ns) base (List.range i) :=
    subset_foldl_augment ns (List.range i) base hb
  simp only [List.foldl_cons, List.foldl_nil]
  rw [augmentStep_of_mem hbase]
  exact Finset.mem_union_right _ hx

theorem getD_mem : ∀ (l : List Msg) (i : Nat), i < l.length →
    l.getD i default ∈ l
  | [], i, h => absurd h (by simp)
  | m :: rest, 0, _ => by simp
  | m :: rest, i + 1, h => by
    have hlt : i < rest.length := Nat.lt_of_succ_lt_succ (by simpa using h)
    rw [List.getD_cons_succ]
    exact List.mem_cons_of_mem m (getD_mem rest i hlt)

theorem mem_selectFrom {s : Finset Nat} :
    ∀ (ns : List Msg) (k : Nat) (m : Msg),
      m ∈ selectFrom s ns k ↔
        ∃ i, i < ns.length ∧ (k + i) ∈ s ∧ ns.getD i default = m
  | [], k, m => by simp [selectFrom]
  | m1 :: rest, k, m => by
    constructor
    · intro h
      by_cases hk : k ∈ s
      · simp only [selectFrom, if_pos hk] at h
        rcases List.mem_cons.mp h with h1 | h1
        · exact ⟨0, by simp, by simpa using hk, by simp [h1.symm]⟩
        · rcases (mem_selectFrom rest (k + 1) m).mp h1 with ⟨i, hi, his, hgd⟩
          exact ⟨i + 1, by simpa using Nat.succ_lt_succ hi,
            by simpa [Nat.add_assoc, Nat.add_comm 1 i] using his,
            by simpa [List.getD_cons_succ] using hgd⟩
      · simp only [selectFrom, if_neg hk] at h
        rcases (mem_selectFrom rest (k + 1) m).mp h with ⟨i, hi, his, hgd⟩
        exact ⟨i + 1, by simpa using Nat.succ_lt_succ hi,
          by simpa [Nat.add_assoc, Nat.add_comm 1 i] using his,
          by simpa [List.getD_cons_succ] using hgd⟩
    · rintro ⟨i, hi, his, hgd⟩
      cases i with
      | zero =>
        have hk : k ∈ s := by simpa using his
        have hm1 : m1 = m := by simpa [List.getD_cons_zero] using hgd
        simp only [selectFrom, if_pos hk]
        rw [← hm1]
        exact List.mem_cons_self m1 _
      | succ i1 =>
        have hmem : m ∈ selectFrom s rest (k + 1) :=
          (mem_selectFrom rest (k + 1) m).mpr
            ⟨i1, by simpa using Nat.lt_of_succ_lt_succ hi,
             by simpa [Nat.add_assoc, Nat.add_comm 1 i1] using his,
             by simpa [List.getD_cons_succ] using hgd⟩
        by_cases hk : k ∈ s
        · simp only [selectFrom, if_pos hk]
          exact List.mem_cons_of_mem m1 hmem
        · simpa only [selectFrom, if_neg hk] using hmem

theorem rpAux_exists :
    ∀ (rest seen : List Msg), rpAux seen rest = true →
      ∀ m ∈ rest, ∀ c, Part.toolReturn c ∈ m.parts →
        ∃ m2 ∈ seen ++ rest, hasToolCall m2 c = true
  | [], _, _, m, hm, _, _ => absurd hm (List.not_mem_nil m)
  | m1 :: rest, seen, h, m, hm, c, hc => by
    simp only [rpAux, Bool.and_eq_true] at h
    rcases h with ⟨ha, hb⟩
    rcases List.mem_cons.mp hm with h1 | h1
    · subst h1
      have hall := List.all_eq_true.mp ha _ hc
      have hany : seen.any (fun m2 => hasToolCall m2 c) = true := by
        simpa using hall
      rcases List.any_eq_true.mp hany with ⟨m2, hm2, hcall⟩
      exact ⟨m2, List.mem_append_left _ hm2, hcall⟩
    · rcases rpAux_exists rest (seen ++ [m1]) hb m h1 c hc with
        ⟨m2, hm2, hcall⟩
      refine ⟨m2, ?_, hcall⟩
      rw [List.append_assoc] at hm2
      exact hm2

theorem returnsPairedBefore_exists {msgs : List Msg}
    (h : returnsPairedBefore msgs = true) :
    ∀ m ∈ msgs, ∀ c, Part.toolReturn c ∈ m.parts →
      ∃ m2 ∈ msgs, hasToolCall m2 c = true := by
  intro m hm c hc
  simpa using rpAux_exists msgs [] h m hm c hc

theorem noMixedMsgs_spec {msgs : List Msg} (h : noMixedMsgs msgs = true) :
    ∀ m ∈ msgs, ∀ c c2, Part.toolCall c ∈ m.parts →
      Part.toolReturn c2 ∈ m.parts → False := by
  intro m hm c c2 hcall hret
  have hm2 := List.all_eq_true.mp h m hm
  have h1 : m.parts.any isCallPart = true :=
    List.any_eq_true.mpr ⟨Part.toolCall c, hcall, rfl⟩
  have h2 : m.parts.any isReturnPart = true :=
    List.any_eq_true.mpr ⟨Part.toolReturn c2, hret, rfl⟩
  simp [h1, h2] at hm2

theorem systemToolFree_spec {msgs : List Msg} (h : systemToolFree msgs = true) :
    ∀ m ∈ msgs, isSystemMsg m = true → ∀ p ∈ m.parts, isToolPart p = false := by
  intro m hm hsys p hp
  have hm2 := List.all_eq_true.mp h m hm
  rw [hsys] at hm2
  simp only [Bool.not_true, Bool.false_or, List.all_eq_true] at hm2
  simpa using hm2 p hp

theorem mem_nonSystem {msgs : List Msg} {m : Msg} :
    m ∈ nonSystem msgs ↔ m ∈ msgs ∧ isSystemMsg m = false := by
  simp [nonSystem, List.mem_filter]

theorem filtered_some_limit (msgs : List Msg) (l : Int) :
    filtered_message_history (some msgs) (some l) true =
      some ((match (trimWindow (nonSystem msgs) (msgs.find? isSystemMsg) l).1 with
             | some s => [s]
             | none => []) ++
        (trimWindow (nonSystem msgs) (msgs.find? isSystemMsg) l).2) := rfl

theorem filtered_none_limit (msgs : List Msg) :
    filtered_message_history (some msgs) none true =
      some ((match msgs.find? isSystemMsg with
             | some s => [s]
             | none => []) ++ nonSystem msgs) := rfl

/-! ## Claim C1: pairing invariant of the context-window builder -/

/-- C1 (counterexample to the claim as stated): a transcript in which every
tool-return part is preceded by a message carrying the matching tool-call
part, yet with limit 1 the built window contains a `ToolReturnPart` (inside
the preserved system message) whose paired tool-call message was trimmed
away: no message of the window carries `toolCall 1`. -/
theorem window_pairing_cex :
    returnsPairedBefore
      [⟨[Part.toolCall 1]⟩, ⟨[Part.system, Part.toolReturn 1]⟩,
       ⟨[Part.text 0]⟩] = true ∧
    filtered_message_history
      (some [⟨[Part.toolCall 1]⟩, ⟨[Part.system, Part.toolReturn 1]⟩,
             ⟨[Part.text 0]⟩]) (some 1) true =
      some [⟨[Part.system, Part.toolReturn 1]⟩, ⟨[Part.text 0]⟩] ∧
    (([⟨[Part.system, Part.toolReturn 1]⟩, ⟨[Part.text 0]⟩] : List Msg).all
      (fun m => !(hasToolCall m 1))) = true := by
  decide

/-- C1 (amended): for every transcript in which every tool-return part is
preceded by a message carrying the tool-call part with the same id, in
which no message carries both a tool-call part and a tool-return part, and
in which no system message carries any tool part, and for every positive
limit, the window built by `filtered_message_history` never contains a
message with a `ToolReturnPart` whose paired tool-call message is absent:
the paired request message is pulled back into the window regardless of its
distance from the last-N boundary. -/
theorem window_pairing_invariant (msgs : List Msg) (l : Int)
    (hpair : returnsPairedBefore msgs = true)
    (hmix : noMixedMsgs msgs = true)
    (hsysfree : systemToolFree msgs = true)
    (hl : 0 < l) :
    ∃ out, filtered_message_history (some msgs) (some l) true = some out ∧
      ∀ m ∈ out, ∀ c, Part.toolReturn c ∈ m.parts →
        ∃ m2 ∈ out, Part.toolCall c ∈ m2.parts := by
  have hcall_in_ns : ∀ m2 ∈ msgs, ∀ c, Part.toolCall c ∈ m2.parts →
      m2 ∈ nonSystem msgs := by
    intro m2 hm2 c hc
    cases hsys2 : isSystemMsg m2 with
    | true =>
      have := systemToolFree_spec hsysfree m2 hm2 hsys2 _ hc
      simp [isToolPart] at this
    | false => exact mem_nonSystem.mpr ⟨hm2, hsys2⟩
  have hexists_call : ∀ m ∈ nonSystem msgs, ∀ c,
      Part.toolReturn c ∈ m.parts →
      ∃ j0, toolCallIdx (nonSystem msgs) c = some j0 := by
    intro m hm c hc
    rcases returnsPairedBefore_exists hpair m (mem_nonSystem.mp hm).1 c hc with
      ⟨m2, hm2, hcall⟩
    exact toolCallIdx_isSome_of_mem (nonSystem msgs) c m2
      (hcall_in_ns m2 hm2 c (hasToolCall_iff.mp hcall)) hcall
  have hsysno : ∀ s, msgs.find? isSystemMsg = some s →
      ∀ c, Part.toolReturn c ∉ s.parts := by
    intro s hs c hcon
    have := systemToolFree_spec hsysfree s (List.mem_of_find?_eq_some hs)
      (List.find?_some hs) _ hcon
    simp [isToolPart] at this
  by_cases hlen : l.toNat < (nonSystem msgs).length
  · -- trimming branch
    have hwindow : ∀ m ∈ selectFrom (windowIdxs (nonSystem msgs) l)
        (nonSystem msgs) 0, ∀ c, Part.toolReturn c ∈ m.parts →
        ∃ m2 ∈ selectFrom (windowIdxs (nonSystem msgs) l) (nonSystem msgs) 0,
          Part.toolCall c ∈ m2.parts := by
      intro m hm c hc
      rcases (mem_selectFrom (nonSystem msgs) 0 m).mp hm with ⟨i, hi, his, hgd⟩
      have his0 : i ∈ windowIdxs (nonSystem msgs) l := by simpa using his
      have hm_ns : m ∈ nonSystem msgs := hgd ▸ getD_mem (nonSystem msgs) i hi
      rcases hexists_call m hm_ns c hc with ⟨j0, hj0⟩
      have hspec := toolCallIdx_spec (nonSystem msgs) c j0 hj0
      have hibase : i ∈ windowBase (nonSystem msgs) l := by
        rcases mem_foldl_augment_cases (nonSystem msgs)
          (List.range (nonSystem msgs).length)
          (windowBase (nonSystem msgs) l) i his0 with hb | hb
        · exact hb
        · rcases hb with ⟨c2, hc2⟩
          have hspec2 := toolCallIdx_spec (nonSystem msgs) c2 i hc2
          have hcall_i : Part.toolCall c2 ∈ m.parts := by
            have hx := hasToolCall_iff.mp hspec2.2
            rwa [hgd] at hx
          exact (noMixedMsgs_spec hmix m (mem_nonSystem.mp hm_ns).1 c2 c
            hcall_i hc).elim
      have hj0inc : j0 ∈ windowIdxs (nonSystem msgs) l := by
        refine pulled_subset_augmentIncluded (nonSystem msgs)
          (windowBase (nonSystem msgs) l) i hi hibase ?_
        refine mem_pulledIdxs.mpr ⟨c, ?_, hj0⟩
        rw [hgd]
        exact hc
      refine ⟨(nonSystem msgs).getD j0 default, ?_, hasToolCall_iff.mp hspec.2⟩
      exact (mem_selectFrom (nonSystem msgs) 0 _).mpr
        ⟨j0, hspec.1, by simpa using hj0inc, rfl⟩
    have hcond : 0 < l ∧ l.toNat < (nonSystem msgs).length := ⟨hl, hlen⟩
    cases hfind : msgs.find? isSystemMsg with
    | none =>
      have htw : trimWindow (nonSystem msgs) (msgs.find? isSystemMsg) l =
          (none, selectFrom (windowIdxs (nonSystem msgs) l) (nonSystem msgs) 0) := by
        unfold trimWindow
        rw [if_pos hcond, hfind]
        rcases latestUser (nonSystem msgs) with _ | ⟨j, p⟩ <;> rfl
      refine ⟨selectFrom (windowIdxs (nonSystem msgs) l) (nonSystem msgs) 0,
        ?_, ?_⟩
      · rw [filtered_some_limit, htw]
        rfl
      · intro m hm c hc
        exact hwindow m hm c hc
    | some s =>
      rcases hlu : latestUser (nonSystem msgs) with _ | ⟨j, p⟩
      · -- no user part anywhere: system message kept unchanged
        have htw : trimWindow (nonSystem msgs) (msgs.find? isSystemMsg) l =
            (some s, selectFrom (windowIdxs (nonSystem msgs) l) (nonSystem msgs) 0) := by
          unfold trimWindow
          rw [if_pos hcond, hfind, hlu]
        refine ⟨s :: selectFrom (windowIdxs (nonSystem msgs) l) (nonSystem msgs) 0,
          by rw [filtered_some_limit, htw]; rfl, ?_⟩
        intro m hm c hc
        rcases List.mem_cons.mp hm with h1 | h1
        · exact absurd (h1 ▸ hc) (hsysno s hfind c)
        · rcases hwindow m h1 c hc with ⟨m2, hm2, hc2⟩
          exact ⟨m2, List.mem_cons_of_mem s hm2, hc2⟩
      · by_cases hjin : j ∈ windowIdxs (nonSystem msgs) l
        · have htw : trimWindow (nonSystem msgs) (msgs.find? isSystemMsg) l =
              (some s, selectFrom (windowIdxs (nonSystem msgs) l) (nonSystem msgs) 0) := by
            unfold trimWindow
            rw [if_pos hcond, hfind, hlu]
            simp only [if_pos hjin]
          refine ⟨s :: selectFrom (windowIdxs (nonSystem msgs) l) (nonSystem msgs) 0,
            by rw [filtered_some_limit, htw]; rfl, ?_⟩
          intro m hm c hc
          rcases List.mem_cons.mp hm with h1 | h1
          · exact absurd (h1 ▸ hc) (hsysno s hfind c)
          · rcases hwindow m h1 c hc with ⟨m2, hm2, hc2⟩
            exact ⟨m2, List.mem_cons_of_mem s hm2, hc2⟩
        · have htw : trimWindow (nonSystem msgs) (msgs.find? isSystemMsg) l =
              (some ⟨replaceFirstUser s.parts p⟩,
               selectFrom (windowIdxs (nonSystem msgs) l) (nonSystem msgs) 0) := by
            unfold trimWindow
            rw [if_pos hcond, hfind, hlu]
            simp only [if_neg hjin]
          refine ⟨Msg.mk (replaceFirstUser s.parts p) ::
            selectFrom (windowIdxs (nonSystem msgs) l) (nonSystem msgs) 0,
            by rw [filtered_some_limit, htw]; rfl, ?_⟩
          intro m hm c hc
          rcases List.mem_cons.mp hm with h1 | h1
          · have hc1 : Part.toolReturn c ∈ replaceFirstUser s.parts p := by
              rw [h1] at hc
              exact hc
            rcases replaceFirstUser_mem_cases s.parts hc1 with h2 | h2
            · exact absurd h2 (hsysno s hfind c)
            · have hup := latestUser_isUser hlu
              rw [← h2] at hup
              simp [isUserPart] at hup
          · rcases hwindow m h1 c hc with ⟨m2, hm2, hc2⟩
            exact ⟨m2, List.mem_cons_of_mem _ hm2, hc2⟩
  · -- no trimming: the whole non-system list is returned
    have htw : trimWindow (nonSystem msgs) (msgs.find? isSystemMsg) l =
        (msgs.find? isSystemMsg, nonSystem msgs) := by
      unfold trimWindow
      rw [if_neg]
      exact fun hcon => hlen hcon.2
    have hbody : ∀ m ∈ nonSystem msgs, ∀ c, Part.toolReturn c ∈ m.parts →
        ∃ m2 ∈ nonSystem msgs, Part.toolCall c ∈ m2.parts := by
      intro m hm c hc
      rcases returnsPairedBefore_exists hpair m (mem_nonSystem.mp hm).1 c hc with
        ⟨m2, hm2, hcall⟩
      exact ⟨m2, hcall_in_ns m2 hm2 c (hasToolCall_iff.mp hcall),
        hasToolCall_iff.mp hcall⟩
    cases hfind : msgs.find? isSystemMsg with
    | none =>
      refine ⟨nonSystem msgs, ?_, ?_⟩
      · rw [filtered_some_limit, htw, hfind]
        rfl
      · intro m hm c hc
        exact hbody m hm c hc
    | some s =>
      refine ⟨s :: nonSystem msgs, ?_, ?_⟩
      · rw [filtered_some_limit, htw, hfind]
        rfl
      · intro m hm c hc
        rcases List.mem_cons.mp hm with h1 | h1
        · exact absurd (h1 ▸ hc) (hsysno s hfind c)
        · rcases hbody m h1 c hc with ⟨m2, hm2, hc2⟩
          exact ⟨m2, List.mem_cons_of_mem s hm2, hc2⟩

/-- C1 (witness): the amended pairing invariant applied to the concrete
transcript of spec Scenario A (`[Sys, U1, A1(call 1), R1(ret 1), U2]`) with
limit 2. -/
theorem window_pairing_invariant_witness :
    ∃ out, filtered_message_history
        (some [⟨[Part.system]⟩, ⟨[Part.user 1]⟩, ⟨[Part.toolCall 1]⟩,
               ⟨[Part.toolReturn 1]⟩, ⟨[Part.user 2]⟩]) (some 2) true =
        some out ∧
      ∀ m ∈ out, ∀ c, Part.toolReturn c ∈ m.parts →
        ∃ m2 ∈ out, Part.toolCall c ∈ m2.parts :=
  window_pairing_invariant
    [⟨[Part.system]⟩, ⟨[Part.user 1]⟩, ⟨[Part.toolCall 1]⟩,
     ⟨[Part.toolReturn 1]⟩, ⟨[Part.user 2]⟩] 2
    (by decide) (by decide) (by decide) (by decide)

/-! ## Claim C5: transcripts without a preamble -/

/-- C5 (counterexample to the claim as stated): a transcript with no system
message whose last user turn falls outside the last-1 candidate set.  No
preamble is synthesized: the returned window is `[text 1]` and contains no
user part at all — the user turn is silently dropped. -/
theorem no_system_drop_cex :
    filtered_message_history
      (some [⟨[Part.user 5]⟩, ⟨[Part.text 0]⟩, ⟨[Part.text 1]⟩])
      (some 1) true = some [⟨[Part.text 1]⟩] ∧
    (([⟨[Part.text 1]⟩] : List Msg).all
      (fun m => !(m.parts.any isUserPart))) = true := by
  decide

/-- C5 (amended): for a transcript that contains no system message, the
builder synthesizes nothing: every message of the returned window is a
message of the input transcript (so a last user turn outside the candidate
set is dropped rather than relocated into a fresh preamble). -/
theorem no_system_no_synthesis (msgs : List Msg) (limit : Option Int)
    (hns : ∀ m ∈ msgs, isSystemMsg m = false) :
    ∃ out, filtered_message_history (some msgs) limit true = some out ∧
      ∀ m ∈ out, m ∈ msgs := by
  have hfind : msgs.find? isSystemMsg = none :=
    List.find?_eq_none.mpr (fun m hm => by simp [hns m hm])
  have hnseq : nonSystem msgs = msgs :=
    List.filter_eq_self.mpr (fun m hm => by simp [hns m hm])
  cases limit with
  | none =>
    refine ⟨msgs, ?_, fun m hm => hm⟩
    rw [filtered_none_limit, hfind, hnseq]
    rfl
  | some l =>
    by_cases hc : 0 < l ∧ l.toNat < (nonSystem msgs).length
    · have htw : trimWindow (nonSystem msgs) (msgs.find? isSystemMsg) l =
          (none, selectFrom (windowIdxs (nonSystem msgs) l)
            (nonSystem msgs) 0) := by
        unfold trimWindow
        rw [if_pos hc, hfind]
        rcases latestUser (nonSystem msgs) with _ | ⟨j, p⟩ <;> rfl
      refine ⟨selectFrom (windowIdxs (nonSystem msgs) l) (nonSystem msgs) 0,
        ?_, ?_⟩
      · rw [filtered_some_limit, htw]
        rfl
      · intro m hm
        rcases (mem_selectFrom (nonSystem msgs) 0 m).mp hm with ⟨i, hi, _, hgd⟩
        have hmem := getD_mem (nonSystem msgs) i hi
        rw [hgd, hnseq] at hmem
        exact hmem
    · have htw : trimWindow (nonSystem msgs) (msgs.find? isSystemMsg) l =
          (msgs.find? isSystemMsg, nonSystem msgs) := by
        unfold trimWindow
        rw [if_neg hc]
      refine ⟨msgs, ?_, fun m hm => hm⟩
      rw [filtered_some_limit, htw, hfind, hnseq]
      rfl

/-- C5 (witness): the no-synthesis theorem applied to the concrete
preamble-free transcript `[U5, T0, T1]` with limit 1. -/
theorem no_system_no_synthesis_witness :
    ∃ out, filtered_message_history
        (some [⟨[Part.user 5]⟩, ⟨[Part.text 0]⟩, ⟨[Part.text 1]⟩])
        (some 1) true = some out ∧
      ∀ m ∈ out, m ∈ [⟨[Part.user 5]⟩, ⟨[Part.text 0]⟩, ⟨[Part.text 1]⟩] :=
  no_system_no_synthesis
    [⟨[Part.user 5]⟩, ⟨[Part.text 0]⟩, ⟨[Part.text 1]⟩] (some 1)
    (by decide)

/-! ## Claim C6: latest-user relocation into the preamble -/

/-- C6 (counterexample to the claim as stated): the claim quantifies over
every transcript, but for a transcript with no system message the dropped
last user turn does not appear in any returned preamble — the returned
window `[text 3]` has no user part anywhere. -/
theorem latest_user_relocated_cex :
    filtered_message_history
      (some [⟨[Part.user 7]⟩, ⟨[Part.text 2]⟩, ⟨[Part.text 3]⟩])
      (some 1) true = some [⟨[Part.text 3]⟩] ∧
    (([⟨[Part.text 3]⟩] : List Msg).all
      (fun m => !(m.parts.any isUserPart))) = true := by
  decide

/-- C6 (amended): for every transcript that has a system message, and every
positive limit, if the latest user prompt part falls outside the augmented
candidate set then it is relocated into the returned preamble: the output
is the modified system message followed by the selected window, the user
part is a member of the new preamble, it is appended when the preamble held
no user part, and it replaces the first user part otherwise. -/
theorem latest_user_relocated (msgs : List Msg) (l : Int) (s : Msg) (j : Nat)
    (p : Part)
    (hsys : msgs.find? isSystemMsg = some s)
    (hl : 0 < l)
    (hlen : l.toNat < (nonSystem msgs).length)
    (hlu : latestUser (nonSystem msgs) = some (j, p))
    (hj : j ∉ windowIdxs (nonSystem msgs) l) :
    filtered_message_history (some msgs) (some l) true =
      some (Msg.mk (replaceFirstUser s.parts p) ::
        selectFrom (windowIdxs (nonSystem msgs) l) (nonSystem msgs) 0) ∧
    p ∈ replaceFirstUser s.parts p ∧
    ((∀ r ∈ s.parts, isUserPart r = false) →
      replaceFirstUser s.parts p = s.parts ++ [p]) ∧
    (∀ pre q post, s.parts = pre ++ q :: post → isUserPart q = true →
      (∀ r ∈ pre, isUserPart r = false) →
      replaceFirstUser s.parts p = pre ++ p :: post) := by
  have htw : trimWindow (nonSystem msgs) (msgs.find? isSystemMsg) l =
      (some ⟨replaceFirstUser s.parts p⟩,
       selectFrom (windowIdxs (nonSystem msgs) l) (nonSystem msgs) 0) := by
    unfold trimWindow
    rw [if_pos ⟨hl, hlen⟩, hsys, hlu]
    simp only [if_neg hj]
  refine ⟨?_, mem_replaceFirstUser p s.parts, ?_, ?_⟩
  · rw [filtered_some_limit, htw]
    rfl
  · exact replaceFirstUser_no_user p s.parts
  · intro pre q post hdecomp hq hpre
    rw [hdecomp]
    exact replaceFirstUser_at_first_user p pre q post hq hpre

/-- C6 (witness): the relocation theorem applied to spec Scenario C
(`[Sys, U1, A1]`, limit 1): U1 is injected into the system preamble and the
window stays `[A1]`. -/
theorem latest_user_relocated_witness :
    filtered_message_history
      (some [⟨[Part.system]⟩, ⟨[Part.user 1]⟩, ⟨[Part.text 9]⟩])
      (some 1) true =
      some (Msg.mk (replaceFirstUser (Msg.mk [Part.system]).parts
          (Part.user 1)) ::
        selectFrom
          (windowIdxs (nonSystem
            [⟨[Part.system]⟩, ⟨[Part.user 1]⟩, ⟨[Part.text 9]⟩]) 1)
          (nonSystem [⟨[Part.system]⟩, ⟨[Part.user 1]⟩, ⟨[Part.text 9]⟩])
          0) ∧
    Part.user 1 ∈ replaceFirstUser (Msg.mk [Part.system]).parts
      (Part.user 1) ∧
    ((∀ r ∈ (Msg.mk [Part.system]).parts, isUserPart r = false) →
      replaceFirstUser (Msg.mk [Part.system]).parts (Part.user 1) =
        (Msg.mk [Part.system]).parts ++ [Part.user 1]) ∧
    (∀ pre q post,
      (Msg.mk [Part.system]).parts = pre ++ q :: post →
      isUserPart q = true →
      (∀ r ∈ pre, isUserPart r = false) →
      replaceFirstUser (Msg.mk [Part.system]).parts (Part.user 1) =
        pre ++ Part.user 1 :: post) :=
  latest_user_relocated
    [⟨[Part.system]⟩, ⟨[Part.user 1]⟩, ⟨[Part.text 9]⟩] 1
    ⟨[Part.system]⟩ 0 (Part.user 1)
    (by decide) (by decide) (by decide) (by decide) (by decide)

/-! ## Claim C7: behaviour without a positive limit -/

/-- C7 (counterexample to the claim as stated): with no limit the function
still extracts the first system-led message and puts it first, so a
transcript whose system message is not first is reordered, not returned
unmodified. -/
theorem no_limit_reorder_cex :
    filtered_message_history (some [⟨[Part.user 0]⟩, ⟨[Part.system]⟩])
      none true = some [⟨[Part.system]⟩, ⟨[Part.user 0]⟩] ∧
    filtered_message_history (some [⟨[Part.user 0]⟩, ⟨[Part.system]⟩])
      none true ≠ some [⟨[Part.user 0]⟩, ⟨[Part.system]⟩] := by
  decide

theorem sys_head_decomp (msgs : List Msg)
    (htail : ∀ m ∈ msgs.tail, isSystemMsg m = false) :
    (match msgs.find? isSystemMsg with
     | some s => [s]
     | none => []) ++ nonSystem msgs = msgs := by
  cases msgs with
  | nil => rfl
  | cons m t =>
    have htail2 : ∀ x ∈ t, isSystemMsg x = false := by simpa using htail
    cases hm : isSystemMsg m with
    | true =>
      have hfind : (m :: t).find? isSystemMsg = some m := by
        simp [List.find?_cons_of_pos, hm]
      have hnseq : nonSystem (m :: t) = t := by
        unfold nonSystem
        rw [List.filter_cons_of_neg (by simp [hm])]
        exact List.filter_eq_self.mpr (fun x hx => by simp [htail2 x hx])
      rw [hfind, hnseq]
      rfl
    | false =>
      have hfind : (m :: t).find? isSystemMsg = none := by
        refine List.find?_eq_none.mpr ?_
        intro x hx
        rcases List.mem_cons.mp hx with h1 | h1
        · simp [h1, hm]
        · simp [htail2 x h1]
      have hnseq : nonSystem (m :: t) = m :: t :=
        List.filter_eq_self.mpr (fun x hx => by
          rcases List.mem_cons.mp hx with h1 | h1
          · simp [h1, hm]
          · simp [htail2 x h1])
      rw [hfind, hnseq]
      rfl

/-- C7 (amended): when the limit is absent or non-positive, the builder
returns the transcript unmodified provided at most its first message is a
system message (the shape every pydantic-ai `all_messages()` transcript
has); otherwise it still reorders the system message to the front. -/
theorem no_limit_full_transcript (msgs : List Msg) (limit : Option Int)
    (hlim : ∀ l, limit = some l → l ≤ 0)
    (htail : ∀ m ∈ msgs.tail, isSystemMsg m = false) :
    filtered_message_history (some msgs) limit true = some msgs := by
  rcases limit with _ | l
  · rw [filtered_none_limit, sys_head_decomp msgs htail]
  · have hl0 : l ≤ 0 := hlim l rfl
    have htw : trimWindow (nonSystem msgs) (msgs.find? isSystemMsg) l =
        (msgs.find? isSystemMsg, nonSystem msgs) := by
      unfold trimWindow
      rw [if_neg]
      intro hcon
      omega
    rw [filtered_some_limit, htw]
    show some ((match msgs.find? isSystemMsg with
         | some s => [s]
         | none => []) ++ nonSystem msgs) = some msgs
    rw [sys_head_decomp msgs htail]

/-- C7 (witness): the full-transcript theorem applied to
`[Sys, T0]` with limit 0. -/
theorem no_limit_full_transcript_witness :
    filtered_message_history (some [⟨[Part.system]⟩, ⟨[Part.text 0]⟩])
      (some 0) true = some [⟨[Part.system]⟩, ⟨[Part.text 0]⟩] :=
  no_limit_full_transcript [⟨[Part.system]⟩, ⟨[Part.text 0]⟩] (some 0)
    (by intro l hl; cases hl; decide) (by decide)

/-! ## Claim C2: idempotence of tool-response resolution -/

/-- C2 (counterexample to the claim as stated): two `tool_response`
messages for the same `request_id` arriving while the pending entry is
still registered.  The first resolves the future with data 42; the second
hits `set_exception` on an already-done future and raises
`InvalidStateError` — an error does surface to the sender of the duplicate
response. -/
theorem duplicate_response_raises_cex :
    (handle_tool_response pendingCM "s" ⟨"r", true, some 42, none⟩).2 =
      none ∧
    (handle_tool_response
      (handle_tool_response pendingCM "s" ⟨"r", true, some 42, none⟩).1 "s"
      ⟨"r", false, none, some "boom"⟩).2 = some "InvalidStateError" := by
  decide

/-- C2 (amended): only the first resolution of a pending future has effect.
A duplicate `complete` is a silent logged no-op exactly when the pending
entry has already been removed (by the waiter's `finally` cleanup); while
the resolved entry is still registered, a duplicate raises
`InvalidStateError` to its sender and leaves the state — hence the value
the waiting caller receives — unchanged.  A first successful resolution
stores the response data in the future. -/
theorem handle_tool_response_first_resolution (st : ConnState) (sid : String)
    (resp : ToolResponseMsg) :
    (pendingLookup st sid resp.request_id = none →
      handle_tool_response st sid resp = (st, none)) ∧
    (∀ fid v, pendingLookup st sid resp.request_id = some fid →
      alookup fid st.futures = some (FutState.resolvedWith v) →
      handle_tool_response st sid resp = (st, some "InvalidStateError")) ∧
    (∀ fid, pendingLookup st sid resp.request_id = some fid →
      alookup fid st.futures = some FutState.unresolved →
      resp.success = true →
      handle_tool_response st sid resp =
        ({ st with
           futures := aset fid (FutState.resolvedWith resp.data) st.futures },
         none)) := by
  refine ⟨?_, ?_, ?_⟩
  · intro h
    unfold handle_tool_response
    rw [h]
  · intro fid v h hf
    unfold handle_tool_response
    rw [h]
    cases hsucc : resp.success with
    | true => simp [hsucc, setFutureResult, hf]
    | false => simp [hsucc, setFutureException, hf]
  · intro fid h hf hsucc
    unfold handle_tool_response
    rw [h]
    simp [hsucc, setFutureResult, hf]

/-- C2 (witness): the amended theorem applied to a concrete state in which
the pending entry for request `"r"` is still registered and its future
already holds data 42: the duplicate failure response raises
`InvalidStateError` and changes nothing. -/
theorem handle_tool_response_first_resolution_witness :
    handle_tool_response resolvedCM "s" ⟨"r", false, none, some "late"⟩ =
      (resolvedCM, some "InvalidStateError") :=
  (handle_tool_response_first_resolution resolvedCM "s"
    ⟨"r", false, none, some "late"⟩).2.1 0 (some 42) (by decide) (by decide)

/-! ## Claim C3: disconnect and outstanding tool requests -/

/-- C3 (code_bug evidence): `disconnect` never resolves or rejects any
future — the future heap is exactly preserved in every branch, including
the one that removes the last connection of a session and discards the
session's `pending_tool_requests` slice.  A caller suspended on such a
future therefore waits for its own timeout; no `connection-lost` rejection
is performed. -/
theorem disconnect_never_resolves_futures (st : ConnState) (sid : String)
    (cid : Option String) :
    (disconnect st sid cid).futures = st.futures := by
  unfold disconnect
  cases halk : alookup sid st.active_connections with
  | none => rfl
  | some conns =>
    cases cid with
    | none => rfl
    | some c =>
      by_cases h : (aremove c conns).isEmpty = true
      · simp only [if_pos h]
      · simp only [if_neg h]

/-! ## Claim C4: terminate_session and outstanding tool requests -/

/-- C4 (code_bug evidence): `terminate_session` evicts the session from the
in-memory map and flips the durable status to terminated, but the
connection-manager state passes through exactly unchanged — its
`pending_tool_requests` map and every future on its heap are untouched, so
no cancellation of outstanding tool requests is requested from the
connection registry. -/
theorem terminate_session_no_cancellation (w : World) (sm : SessionsMap)
    (cm : ConnState) (sid : Nat) :
    (terminate_session w sm cm sid).2.2.pending_tool_requests =
      cm.pending_tool_requests ∧
    (terminate_session w sm cm sid).2.2.futures = cm.futures ∧
    (terminate_session w sm cm sid).2.2 = cm :=
  ⟨rfl, rfl, rfl⟩

/-! ## Claim C8: uniqueness of connection ids -/

theorem connect_conn_id (st : ConnState) (ws : Nat) (sid t tok : String) :
    (connect st ws sid t tok).2.2 = t ++ "-" ++ tok := by
  cases halk : alookup sid st.session_contexts <;>
    simp [connect, halk]

theorem connect_active (st : ConnState) (ws : Nat) (sid t tok : String) :
    (connect st ws sid t tok).1.active_connections =
      aset sid (aset (t ++ "-" ++ tok) ws
        ((alookup sid st.active_connections).getD []))
        st.active_connections := by
  cases halk : alookup sid st.session_contexts <;>
    simp [connect, halk]

/-- C8 (counterexample to the claim as stated): `connect` derives the
connection id from the supplied random token with no uniqueness check, so
two registrations for the same session that draw the same truncated token
collide: both calls return the same connection id, and the second
websocket silently overwrites the first in the per-session map. -/
theorem connect_token_collision_cex :
    (connect emptyCM 1 "s" "pwa" "aaaa").2.2 =
      (connect (connect emptyCM 1 "s" "pwa" "aaaa").1 2 "s" "pwa"
        "aaaa").2.2 ∧
    (connect (connect emptyCM 1 "s" "pwa" "aaaa").1 2 "s" "pwa"
      "aaaa").1.active_connections = [("s", [("pwa-aaaa", 2)])] := by
  decide

/-- C8 (amended): two connections registered for the same session collide
exactly when their derived ids `type ++ "-" ++ token` coincide; whenever
the derived ids differ, neither registration overwrites the other — after
the two `connect` calls both websockets are present in the per-session
map under their own connection ids. -/
theorem connect_distinct_ids_no_overwrite (st : ConnState) (ws1 ws2 : Nat)
    (sid t1 t2 tok1 tok2 : String)
    (hne : t1 ++ "-" ++ tok1 ≠ t2 ++ "-" ++ tok2) :
    (connect st ws1 sid t1 tok1).2.2 = t1 ++ "-" ++ tok1 ∧
    (connect (connect st ws1 sid t1 tok1).1 ws2 sid t2 tok2).2.2 =
      t2 ++ "-" ++ tok2 ∧
    alookup (t1 ++ "-" ++ tok1)
      ((alookup sid (connect (connect st ws1 sid t1 tok1).1 ws2 sid t2
        tok2).1.active_connections).getD []) = some ws1 ∧
    alookup (t2 ++ "-" ++ tok2)
      ((alookup sid (connect (connect st ws1 sid t1 tok1).1 ws2 sid t2
        tok2).1.active_connections).getD []) = some ws2 := by
  refine ⟨connect_conn_id st ws1 sid t1 tok1,
    connect_conn_id _ ws2 sid t2 tok2, ?_, ?_⟩
  · rw [connect_active, connect_active, alookup_aset_self]
    rw [Option.getD_some, alookup_aset_self, Option.getD_some]
    rw [alookup_aset_ne ws2 hne]
    exact alookup_aset_self (t1 ++ "-" ++ tok1) ws1 _
  · rw [connect_active, connect_active, alookup_aset_self, Option.getD_some]
    exact alookup_aset_self (t2 ++ "-" ++ tok2) ws2 _

/-- C8 (witness): the no-overwrite theorem applied to two connects for the
same session with distinct tokens `"aaaa"` and `"bbbb"`. -/
theorem connect_distinct_ids_no_overwrite_witness :
    (connect emptyCM 1 "s" "pwa" "aaaa").2.2 = "pwa" ++ "-" ++ "aaaa" ∧
    (connect (connect emptyCM 1 "s" "pwa" "aaaa").1 2 "s" "pwa"
      "bbbb").2.2 = "pwa" ++ "-" ++ "bbbb" ∧
    alookup ("pwa" ++ "-" ++ "aaaa")
      ((alookup "s" (connect (connect emptyCM 1 "s" "pwa" "aaaa").1 2 "s"
        "pwa" "bbbb").1.active_connections).getD []) = some 1 ∧
    alookup ("pwa" ++ "-" ++ "bbbb")
      ((alookup "s" (connect (connect emptyCM 1 "s" "pwa" "aaaa").1 2 "s"
        "pwa" "bbbb").1.active_connections).getD []) = some 2 :=
  connect_distinct_ids_no_overwrite emptyCM 1 2 "s" "pwa" "pwa" "aaaa"
    "bbbb" (by decide)

/-! ## Claim C9: restore performs no provisioning -/

/-- C9: `restore_session` performs none of the one-time provisioning side
effects of `create_session`: on success the durable world (sessions table,
memory-file records, `memory.json` and pickled-history files) is returned
exactly unchanged, and the rebuilt in-memory handle merely holds the
history read from the durable file. -/
theorem restore_session_read_only (w : World) (sm : SessionsMap) (sid : Nat)
    (out : World × SessionsMap × SessionState)
    (h : restore_session w sm sid = Except.ok out) :
    out.1 = w ∧
    out.2.2.conversation_history = (alookup sid w.fs_history).getD [] := by
  unfold restore_session at h
  cases hrow : alookup sid w.db_sessions with
  | none =>
    rw [hrow] at h
    cases h
  | some row =>
    rw [hrow] at h
    injection h with h1
    rw [← h1]
    exact ⟨rfl, rfl⟩

/-- C9 (witness): restoring session 1 from `sampleWorld` leaves the world
unchanged and loads the one-message pickled history. -/
theorem restore_session_read_only_witness :
    (sampleWorld,
      aset 1 ⟨1, sampleCfg, [⟨[Part.text 0]⟩], true⟩ ([] : SessionsMap),
      (⟨1, sampleCfg, [⟨[Part.text 0]⟩], true⟩ : SessionState)).1 =
        sampleWorld ∧
    (sampleWorld,
      aset 1 ⟨1, sampleCfg, [⟨[Part.text 0]⟩], true⟩ ([] : SessionsMap),
      (⟨1, sampleCfg, [⟨[Part.text 0]⟩], true⟩ :
        SessionState)).2.2.conversation_history =
      (alookup 1 sampleWorld.fs_history).getD [] :=
  restore_session_read_only sampleWorld [] 1
    (sampleWorld,
      aset 1 ⟨1, sampleCfg, [⟨[Part.text 0]⟩], true⟩ ([] : SessionsMap),
      ⟨1, sampleCfg, [⟨[Part.text 0]⟩], true⟩) rfl

/-! ## Claim C10: send_message return value -/

/-- C10: `send_message` reports `true` exactly when at least one registered
connection matches the target filter — the per-connection send failures
(`sendFails` oracle) are caught and logged and never change the returned
boolean, so `true` does not imply that any payload was delivered, and
`false` is returned only when zero connections matched. -/
theorem mem_targetsOf {conns : List (String × Nat)} {target : String}
    {kv : String × Nat} :
    kv ∈ targetsOf conns target ↔
      kv ∈ conns ∧ connMatches target kv.1 = true := by
  unfold targetsOf connMatches
  by_cases ht : target = "all"
  · simp [ht]
  · simp [ht, List.mem_filter]

theorem send_message_matched_iff (st : ConnState) (sid target : String)
    (sendFails : String → Bool) :
    ((send_message st sid target sendFails).1 = true ↔
      ∃ cid ws, (cid, ws) ∈ (alookup sid st.active_connections).getD [] ∧
        connMatches target cid = true) ∧
    (∀ g : String → Bool,
      (send_message st sid target sendFails).1 =
        (send_message st sid target g).1) := by
  constructor
  · cases hconns : alookup sid st.active_connections with
    | none => simp [send_message, hconns]
    | some conns =>
      simp only [send_message, hconns, Option.getD_some]
      by_cases he : (targetsOf conns target).isEmpty = true
      · rw [if_pos he]
        have hnil : targetsOf conns target = [] := List.isEmpty_iff.mp he
        refine ⟨fun hff => absurd hff (by simp), ?_⟩
        rintro ⟨cid, ws, hmem, hmatch⟩
        have hcontra : (cid, ws) ∈ targetsOf conns target :=
          mem_targetsOf.mpr ⟨hmem, hmatch⟩
        rw [hnil] at hcontra
        exact (List.not_mem_nil _ hcontra).elim
      · rw [if_neg he]
        have hne : targetsOf conns target ≠ [] :=
          fun hc => he (by simp [hc])
        refine ⟨fun _ => ?_, fun _ => rfl⟩
        rcases List.exists_mem_of_ne_nil _ hne with ⟨kv, hkv⟩
        rcases mem_targetsOf.mp hkv with ⟨hmem, hmatch⟩
        exact ⟨kv.1, kv.2, by simpa using hmem, hmatch⟩
  · intro g
    cases hconns : alookup sid st.active_connections with
    | none => simp [send_message, hconns]
    | some conns =>
      simp only [send_message, hconns]
      by_cases he : (targetsOf conns target).isEmpty = true
      · rw [if_pos he, if_pos he]
      · rw [if_neg he, if_neg he]

end StrudelAgent
